import Mathlib

/-!
Shallow embedding of the two model files of the repository:
`src/kospeech/models/las/encoder.py` (EncoderRNN) and
`src/kospeech/models/transformer/decoder.py` (SpeechTransformerDecoderLayer,
SpeechTransformerDecoder).

Float tensors are modelled over `ℝ`.  Modules are modelled in evaluation mode:
dropout is the identity and batch normalization uses its running statistics.
Components that the excerpt imports but does not contain (the convolutional
extractors, the mask helpers, the attention module, the sublayers, the
embeddings and the base-class probability normalization) are modelled from the
specification; each such definition carries a doc comment saying so.
-/

noncomputable section

/-- Logistic sigmoid, used by the GRU and LSTM gate equations. -/
def sigmoid (x : ℝ) : ℝ := 1 / (1 + Real.exp (-x))

/-- Dot product of two (finite) coordinate lists; extra coordinates of the
longer list are ignored, matching a fixed-shape matrix row acting on a vector. -/
def dotL (v w : List ℝ) : ℝ := (List.zipWith (· * ·) v w).sum

/-! ## EncoderRNN (src/kospeech/models/las/encoder.py) -/

/-- The closed set of recurrent cell variants (encoder.py lines 50-54). -/
inductive RNNType
  | lstm
  | gru
  | rnn
deriving DecidableEq

/-- The `supported_rnns` lookup table (encoder.py lines 50-54): a string key is
mapped to its cell variant, an unknown key has no entry. -/
def supported_rnns (s : String) : Option RNNType :=
  if s = "lstm" then some RNNType.lstm
  else if s = "gru" then some RNNType.gru
  else if s = "rnn" then some RNNType.rnn
  else none

/-- The closed set of convolutional extractor variants (encoder.py lines 55-58). -/
inductive ExtractorType
  | ds2
  | vgg
deriving DecidableEq

/-- The `supported_extractors` lookup table (encoder.py lines 55-58). -/
def supported_extractors (s : String) : Option ExtractorType :=
  if s = "ds2" then some ExtractorType.ds2
  else if s = "vgg" then some ExtractorType.vgg
  else none

/-- Modelled from the spec: the convolutional front end (kospeech.models.conv,
not part of the excerpt) "applies strided/pooled convolutions, and emits both a
reduced-time feature map and updated valid lengths (time axis shrinks by the
extractor's fixed downsampling factor; exact factor is extractor-specific)".
The VGG-style extractor pools the time axis by 2 twice (factor 4); the
DeepSpeech2-style extractor strides the time axis by 2 (factor 2). -/
def ExtractorType.factor : ExtractorType → ℕ
  | ExtractorType.ds2 => 2
  | ExtractorType.vgg => 4

/-- Weights of one recurrent cell (one layer, one direction): row `r` of the
input-hidden and hidden-hidden matrices and the two bias vectors, as used by
the torch RNN family consumed in encoder.py lines 79-87. -/
structure CellWeights where
  Wih : ℕ → List ℝ
  Whh : ℕ → List ℝ
  bih : ℕ → ℝ
  bhh : ℕ → ℝ

/-- One affine gate row of the torch RNN family:
`W_ih[r]·x + b_ih[r] + W_hh[r]·h + b_hh[r]`. -/
def gateRow (w : CellWeights) (x hp : List ℝ) (r : ℕ) : ℝ :=
  dotL (w.Wih r) x + w.bih r + dotL (w.Whh r) hp + w.bhh r

/-- One step of the selected recurrent cell on state `(hidden, cellState)` and
input `x`; the new hidden state is a length-`h` vector by construction.  The
three variants follow the torch equations for `nn.RNN` (tanh), `nn.GRU` and
`nn.LSTM` (gate rows stacked as i, f, g, o). -/
def cellStep (ty : RNNType) (h : ℕ) (w : CellWeights) (x : List ℝ)
    (s : List ℝ × List ℝ) : List ℝ × List ℝ :=
  match ty with
  | RNNType.rnn =>
      ((List.range h).map (fun t => Real.tanh (gateRow w x s.1 t)), s.2)
  | RNNType.gru =>
      ((List.range h).map (fun t =>
        (1 - sigmoid (gateRow w x s.1 (h + t)))
            * Real.tanh (dotL (w.Wih (2 * h + t)) x + w.bih (2 * h + t)
                + sigmoid (gateRow w x s.1 t)
                  * (dotL (w.Whh (2 * h + t)) s.1 + w.bhh (2 * h + t)))
          + sigmoid (gateRow w x s.1 (h + t)) * s.1.getD t 0), s.2)
  | RNNType.lstm =>
      let c := (List.range h).map (fun t =>
        sigmoid (gateRow w x s.1 (h + t)) * s.2.getD t 0
          + sigmoid (gateRow w x s.1 t) * Real.tanh (gateRow w x s.1 (2 * h + t)))
      ((List.range h).map (fun t =>
        sigmoid (gateRow w x s.1 (3 * h + t)) * Real.tanh (c.getD t 0)), c)

/-- Run a cell over a frame sequence, emitting the hidden state after each
frame (the per-time-step output of one direction of one layer). -/
def runCell (ty : RNNType) (h : ℕ) (w : CellWeights) :
    List ℝ × List ℝ → List (List ℝ) → List (List ℝ)
  | _, [] => []
  | s, x :: xs =>
      let s2 := cellStep ty h w x s
      s2.1 :: runCell ty h w s2 xs

/-- The all-zero initial recurrent state. -/
def zeroState (h : ℕ) : List ℝ × List ℝ :=
  (List.replicate h 0, List.replicate h 0)

/-- One recurrent layer over a frame sequence.  Bidirectional mode runs a
second cell over the reversed sequence and concatenates, per time step, the
backward hidden state onto the forward one (torch bidirectional semantics). -/
def rnnLayer (ty : RNNType) (h : ℕ) (bidi : Bool) (wf wb : CellWeights)
    (xs : List (List ℝ)) : List (List ℝ) :=
  let fwd := runCell ty h wf (zeroState h) xs
  if bidi then
    List.zipWith (· ++ ·) fwd ((runCell ty h wb (zeroState h) xs.reverse).reverse)
  else fwd

/-- The stacked multi-layer recurrent network of encoder.py lines 79-87: layer
`l` consumes layer `l-1`'s per-time-step output (dropout between layers is the
identity in evaluation mode). -/
def rnnStack (ty : RNNType) (h : ℕ) (bidi : Bool)
    (weights : ℕ → CellWeights × CellWeights) (numLayers : ℕ)
    (xs : List (List ℝ)) : List (List ℝ) :=
  (List.range numLayers).foldl
    (fun acc l => rnnLayer ty h bidi (weights l).1 (weights l).2 acc) xs

/-- The constructed EncoderRNN (encoder.py lines 60-95): resolved configuration
plus the learned parameters of its submodules (weights are abstract data). -/
structure EncoderRNN where
  input_dim : ℕ
  num_classes : ℕ
  hidden_state_dim : ℕ
  num_layers : ℕ
  bidirectional : Bool
  rnn_type : RNNType
  extractor : ExtractorType
  joint_ctc_attention : Bool
  convApply : List (List ℝ) → List (List ℝ)
  rnnWeights : ℕ → CellWeights × CellWeights
  bnGamma : ℕ → ℝ
  bnBeta : ℕ → ℝ
  bnMean : ℕ → ℝ
  bnVar : ℕ → ℝ
  bnEps : ℝ
  fcW : ℕ → List ℝ

/-- `EncoderRNN.__init__` (encoder.py lines 60-95): the two configuration
strings are lower-cased and looked up in `supported_extractors` (line 76) and
`supported_rnns` (line 77); an unknown key raises `KeyError` at construction
time.  Learned parameters are supplied abstractly. -/
def EncoderRNN.init (input_dim num_classes hidden_state_dim num_layers : ℕ)
    (bidirectional : Bool) (rnn_type extr : String) (joint_ctc_attention : Bool)
    (convApply : List (List ℝ) → List (List ℝ))
    (rnnWeights : ℕ → CellWeights × CellWeights)
    (bnGamma bnBeta bnMean bnVar : ℕ → ℝ) (bnEps : ℝ) (fcW : ℕ → List ℝ) :
    Except String EncoderRNN :=
  match supported_extractors extr.toLower with
  | none => Except.error "KeyError: unsupported extractor"
  | some e =>
    match supported_rnns rnn_type.toLower with
    | none => Except.error "KeyError: unsupported rnn cell"
    | some r =>
      Except.ok
        { input_dim := input_dim, num_classes := num_classes,
          hidden_state_dim := hidden_state_dim, num_layers := num_layers,
          bidirectional := bidirectional, rnn_type := r, extractor := e,
          joint_ctc_attention := joint_ctc_attention, convApply := convApply,
          rnnWeights := rnnWeights, bnGamma := bnGamma, bnBeta := bnBeta,
          bnMean := bnMean, bnVar := bnVar, bnEps := bnEps, fcW := fcW }

/-- The reduced valid lengths produced by the convolutional front end
(encoder.py line 103; downsampling factor modelled from the spec, see
`ExtractorType.factor`). -/
def EncoderRNN.reducedLengths (E : EncoderRNN) (input_lengths : List ℕ) : List ℕ :=
  input_lengths.map (fun l => l / E.extractor.factor)

/-- `nn.BatchNorm1d` in evaluation mode: a per-channel affine normalization by
the running statistics (encoder.py line 91; applied along the channel axis). -/
def batchNormApply (E : EncoderRNN) (v : List ℝ) : List ℝ :=
  v.mapIdx (fun c x =>
    E.bnGamma c * ((x - E.bnMean c) / Real.sqrt (E.bnVar c + E.bnEps)) + E.bnBeta c)

/-- `nn.Dropout` in evaluation mode is the identity map (encoder.py line 93). -/
def dropoutEval (v : List ℝ) : List ℝ := v

/-- kospeech `modules.Linear` with `bias=False` (encoder.py line 94): the
bias-free projection whose output length is its number of rows. -/
def linearNoBias (W : ℕ → List ℝ) (outDim : ℕ) (x : List ℝ) : List ℝ :=
  (List.range outDim).map (fun r => dotL (W r) x)

/-- `log_softmax` along a coordinate list (encoder.py line 111). -/
def logSoftmaxL (v : List ℝ) : List ℝ :=
  v.map (fun x => x - Real.log ((v.map Real.exp).sum))

/-- The CTC head applied to one frame (encoder.py lines 89-95 and 110-111):
batch normalization over channels, dropout, bias-free linear projection to
`num_classes`, then log-softmax over the class axis. -/
def ctcFrame (E : EncoderRNN) (v : List ℝ) : List ℝ :=
  logSoftmaxL (linearNoBias E.fcW E.num_classes (dropoutEval (batchNormApply E v)))

/-- Hidden states of the encoder (encoder.py lines 103-108): the convolutional
feature map of each utterance, truncated to its reduced valid length by the
packing, is run through the recurrent stack; unpacking pads every utterance
with zero frames up to the longest reduced valid length of the batch. -/
def EncoderRNN.hiddenStates (E : EncoderRNN) (inputs : List (List (List ℝ)))
    (input_lengths : List ℕ) : List (List (List ℝ)) :=
  let outLens := E.reducedLengths input_lengths
  let maxLen := outLens.foldr max 0
  let width := if E.bidirectional then 2 * E.hidden_state_dim else E.hidden_state_dim
  (List.range inputs.length).map (fun i =>
    let ys := rnnStack E.rnn_type E.hidden_state_dim E.bidirectional E.rnnWeights
      E.num_layers ((E.convApply (inputs.getD i [])).take (outLens.getD i 0))
    ys ++ List.replicate (maxLen - ys.length) (List.replicate width 0))

/-- The sortedness predicate demanded by `pack_padded_sequence` with its
default `enforce_sorted=True` (encoder.py line 105): the lengths must be in
non-increasing order, otherwise the call raises. -/
def nonIncreasing : List ℕ → Bool
  | [] => true
  | [_] => true
  | a :: b :: rest => decide (b ≤ a) && nonIncreasing (b :: rest)

/-- `EncoderRNN.forward` (encoder.py lines 97-113): convolutional reduction,
packing by the reduced lengths (which raises unless they are non-increasing),
the recurrent stack, unpacking, and the optional CTC head.  The third
component is `none` when `joint_ctc_attention` is disabled. -/
def EncoderRNN.forward (E : EncoderRNN) (inputs : List (List (List ℝ)))
    (input_lengths : List ℕ) :
    Except String (List (List (List ℝ)) × List ℕ × Option (List (List (List ℝ)))) :=
  if nonIncreasing (E.reducedLengths input_lengths) then
    Except.ok (E.hiddenStates inputs input_lengths, E.reducedLengths input_lengths,
      if E.joint_ctc_attention then
        some ((E.hiddenStates inputs input_lengths).map (fun u => u.map (ctcFrame E)))
      else none)
  else
    Except.error "lengths array must be sorted in decreasing order when enforce_sorted is True"

/-! ## SpeechTransformerDecoder (src/kospeech/models/transformer/decoder.py) -/

/-- A feature vector of the decoder, indexed by coordinate. -/
def RVec : Type := ℕ → ℝ

/-- A sequence of feature vectors, indexed by position. -/
def RSeq : Type := ℕ → RVec

/-- Pointwise vector addition. -/
def addV (v w : RVec) : RVec := fun t => v t + w t

/-- Scaling of a vector by a scalar. -/
def scaleV (c : ℝ) (v : RVec) : RVec := fun t => c * v t

/-- Dot product over the first `d` coordinates. -/
def dotN (d : ℕ) (v w : RVec) : ℝ := ∑ t ∈ Finset.range d, v t * w t

/-- Parameters of one multi-head attention module: per-head query/key/value
projection rows over the model width and the output projection rows over the
concatenated head outputs. -/
structure MHAParams where
  numHeads : ℕ
  headDim : ℕ
  Wq : ℕ → ℕ → RVec
  Wk : ℕ → ℕ → RVec
  Wv : ℕ → ℕ → RVec
  Wo : ℕ → RVec

/-- Projection of a width-`d` vector into a head subspace of width `dh`. -/
def projHead (d dh : ℕ) (W : ℕ → RVec) (x : RVec) : RVec :=
  fun r => if r < dh then dotN d (W r) x else 0

/-- Modelled from the spec: scaled dot-product attention score of head `h`
between a query and a key (kospeech.models.attention, not in the excerpt;
glossary: "a sequence element attends to (weighted-combines) other elements"). -/
def attnScore (p : MHAParams) (d h : ℕ) (q k : RVec) : ℝ :=
  dotN p.headDim (projHead d p.headDim (p.Wq h) q) (projHead d p.headDim (p.Wk h) k)
    / Real.sqrt (p.headDim : ℝ)

/-- Softmax denominator over the unmasked key positions; a masked position is
filled with -∞ before the softmax, so it contributes weight zero. -/
def attnDenom (p : MHAParams) (d h : ℕ) (q : RVec) (keys : RSeq) (n : ℕ)
    (masked : ℕ → Bool) : ℝ :=
  ∑ j ∈ Finset.range n, if masked j then 0 else Real.exp (attnScore p d h q (keys j))

/-- The attention weight of head `h`, query `q`, key position `j`. -/
def attnWeightD (p : MHAParams) (d h : ℕ) (q : RVec) (keys : RSeq) (n : ℕ)
    (masked : ℕ → Bool) (j : ℕ) : ℝ :=
  if masked j then 0
  else Real.exp (attnScore p d h q (keys j)) / attnDenom p d h q keys n masked

/-- The output of head `h` for one query: the attention-weighted combination of
the projected value vectors. -/
def headOut (p : MHAParams) (d h : ℕ) (q : RVec) (keys vals : RSeq) (n : ℕ)
    (masked : ℕ → Bool) : RVec :=
  fun t => ∑ j ∈ Finset.range n,
    attnWeightD p d h q keys n masked j * projHead d p.headDim (p.Wv h) (vals j) t

/-- Concatenation of the per-head outputs along the feature axis. -/
def concatHeads (p : MHAParams) (f : ℕ → RVec) : RVec :=
  fun t => f (t / p.headDim) (t % p.headDim)

/-- One multi-head attention output vector for one query position. -/
def mhaOut (p : MHAParams) (d : ℕ) (q : RVec) (keys vals : RSeq) (n : ℕ)
    (masked : ℕ → Bool) : RVec :=
  fun r => dotN (p.numHeads * p.headDim) (p.Wo r)
    (concatHeads p (fun h => headOut p d h q keys vals n masked))

/-- An attention-weight map: head, query position, key position to weight. -/
def AttnW : Type := ℕ → ℕ → ℕ → ℝ

/-- Modelled from the spec: the multi-head attention module returns the
attended sequence together with its attention-weight map (kospeech
MultiHeadAttention, not in the excerpt). -/
def mhaForward (p : MHAParams) (d : ℕ) (qs keys vals : RSeq) (n : ℕ)
    (mask : ℕ → ℕ → Bool) : RSeq × AttnW :=
  (fun i => mhaOut p d (qs i) keys vals n (mask i),
   fun h i j => attnWeightD p d h (qs i) keys n (mask i) j)

/-- Layer-normalization parameters (gain, bias, epsilon). -/
structure LNParams where
  g : RVec
  b : RVec
  eps : ℝ

/-- Layer normalization of one vector over its first `d` coordinates. -/
def lnApply (d : ℕ) (p : LNParams) (v : RVec) : RVec :=
  let mu := (∑ t ∈ Finset.range d, v t) / (d : ℝ)
  let s2 := (∑ t ∈ Finset.range d, (v t - mu) ^ 2) / (d : ℝ)
  fun t => p.g t * ((v t - mu) / Real.sqrt (s2 + p.eps)) + p.b t

/-- Modelled from the spec: "Each sub-layer's raw output is added to its input
(residual) and normalized before being passed to the next stage" — the
reusable add-and-normalize wrapper (sublayers.AddNorm, not in the excerpt),
applied per position with the wrapped call's first argument as the residual. -/
def addNormSeq (d : ℕ) (ln : LNParams) (out x : RSeq) : RSeq :=
  fun i => lnApply d ln (addV (out i) (x i))

/-- Parameters of the position-wise feed-forward network. -/
structure FFParams where
  d_ff : ℕ
  W1 : ℕ → RVec
  b1 : RVec
  W2 : ℕ → RVec
  b2 : RVec

/-- Modelled from the spec: "Position-wise feed-forward network (choice of
plain two-layer feed-forward or convolutional variant), applied independently
per time step" (sublayers.PositionwiseFeedForwardNet, not in the excerpt; the
convolutional variant uses kernel size one, hence is also a per-position
two-layer map). -/
def ffApply (d : ℕ) (f : FFParams) (x : RVec) : RVec :=
  fun r => dotN f.d_ff (f.W2 r) (fun u => max (dotN d (f.W1 u) x + f.b1 u) 0) + f.b2 r

/-- Parameters of one SpeechTransformerDecoderLayer (decoder.py lines 47-58):
the two attention modules and the feed-forward net, each with the
layer-normalization of its AddNorm wrapper. -/
structure DecoderLayerP where
  selfAttn : MHAParams
  lnSelf : LNParams
  memAttn : MHAParams
  lnMem : LNParams
  ff : FFParams
  lnFf : LNParams

/-- `SpeechTransformerDecoderLayer.forward` (decoder.py lines 60-70): masked
self-attention, then cross-attention against the encoder memory, then the
position-wise feed-forward net, each wrapped in AddNorm; returns the updated
hidden states and the two attention-weight maps. -/
def layerForward (d : ℕ) (L : DecoderLayerP) (x mem : RSeq) (n m : ℕ)
    (sm mm : ℕ → ℕ → Bool) : RSeq × AttnW × AttnW :=
  let s1 := mhaForward L.selfAttn d x x x n sm
  let o1 := addNormSeq d L.lnSelf s1.1 x
  let s2 := mhaForward L.memAttn d o1 mem mem m mm
  let o2 := addNormSeq d L.lnMem s2.1 o1
  let o3 := addNormSeq d L.lnFf (fun i => ffApply d L.ff (o2 i)) o2
  (o3, s1.2, s2.2)

/-- The closed set of feed-forward styles (decoder.py line 44 docstring:
"style of feed forward network [ff, conv]"). -/
def supported_ffnet_styles : List String := ["ff", "conv"]

/-- Modelled from the spec: `SpeechTransformerDecoderLayer.__init__`
(decoder.py lines 47-58) builds its PositionwiseFeedForwardNet (not in the
excerpt), which selects the feed-forward variant from the closed set
[ff, conv] at construction and rejects any other style there ("reject unknown
configuration-string values at construction rather than deferring to a runtime
shape error").  Learned parameters are supplied abstractly. -/
def SpeechTransformerDecoderLayer.init (d_model num_heads d_ff : ℕ)
    (ffnet_style : String) (P : DecoderLayerP) : Except String DecoderLayerP :=
  if ffnet_style ∈ supported_ffnet_styles then Except.ok P
  else Except.error "Unsupported ffnet style"

/-- Parameters of the SpeechTransformerDecoder stack (decoder.py lines
91-124): embedding table, positional-encoding signal, the layer stack, and the
two rows of the output projection `fc = Linear(d, d) → Tanh → Linear(d, C)`. -/
structure DecoderParams where
  num_classes : ℕ
  d_model : ℕ
  num_heads : ℕ
  pad_id : ℕ
  eos_id : ℕ
  emb : ℕ → RVec
  posEnc : ℕ → RVec
  layers : List DecoderLayerP
  fc1W : ℕ → RVec
  fc1b : RVec
  fc2W : ℕ → RVec
  fc2b : RVec

/-- Modelled from the spec: "a causal self-attention mask combined with a
padding mask derived from pad-token id (any position equal to pad-token id is
masked as a key)" (mask.get_decoder_self_attn_mask, decoder.py line 129, not
in the excerpt): key `j` is masked for query `i` when `j` is in the future or
when token `j` is the pad token. -/
def selfAttnMask (pad : ℕ) (toks : List ℕ) (i j : ℕ) : Bool :=
  decide (i < j) || decide (toks.getD j pad = pad)

/-- Modelled from the spec: "a memory mask derived from the encoder's
valid-length vector (positions beyond each utterance's valid encoder length
are masked as keys), broadcast across the decoder's output length"
(mask.get_attn_pad_mask, decoder.py line 130, not in the excerpt). -/
def memAttnMask (len : ℕ) (_i j : ℕ) : Bool := decide (len ≤ j)

/-- Modelled from the spec: "token ids are mapped through a learned embedding
table, scaled/combined with a deterministic positional-encoding signal
(indexed by output position), then dropout is applied"
(embeddings.Embedding/PositionalEncoding, decoder.py line 132, not in the
excerpt); the embedding is scaled by sqrt(d_model), the positional signal is
added, and dropout (evaluation mode) is the identity. -/
def embedTokens (D : DecoderParams) (toks : List ℕ) : RSeq :=
  fun i => addV (scaleV (Real.sqrt (D.d_model : ℝ)) (D.emb (toks.getD i D.pad_id)))
    (D.posEnc i)

/-- The layer stack of decoder.py lines 135-136: each layer consumes the
previous layer's output together with the same encoder memory and the same two
masks; the per-layer attention maps are dropped. -/
def threadLayers (d : ℕ) (Ls : List DecoderLayerP) (x mem : RSeq) (n m : ℕ)
    (sm mm : ℕ → ℕ → Bool) : RSeq :=
  Ls.foldl (fun acc L => (layerForward d L acc mem n m sm mm).1) x

/-- `log_softmax` over the first `C` coordinates (the vocabulary axis). -/
def logSoftmaxN (C : ℕ) (v : RVec) : RVec :=
  fun c => v c - Real.log (∑ u ∈ Finset.range C, Real.exp (v u))

/-- Modelled from the spec: "final hidden states pass through a two-layer
projection (linear → nonlinearity → linear) to vocabulary logits, followed by
log-softmax ... this is the get normalized probabilities contract"
(BaseDecoder.get_normalized_probs, decoder.py line 138, not in the excerpt);
the two linear maps are the `fc` of decoder.py lines 120-124. -/
def getNormalizedProbs (D : DecoderParams) (hid : RVec) : RVec :=
  logSoftmaxN D.num_classes
    (fun r => dotN D.d_model (D.fc2W r)
      (fun u => Real.tanh (dotN D.d_model (D.fc1W u) hid + D.fc1b u)) + D.fc2b r)

/-- The per-utterance decoder computation (decoder.py lines 126-140 for one
batch element): build the two masks, embed the tokens, thread the layer stack,
project and normalize. -/
def decoderComputeOne (D : DecoderParams) (toks : List ℕ) (n len m : ℕ)
    (mem : RSeq) : RSeq :=
  fun i => getNormalizedProbs D
    (threadLayers D.d_model D.layers (embedTokens D toks) mem n m
      (selfAttnMask D.pad_id toks) (memAttnMask len) i)

/-- The batched decoder computation: batch elements are independent; element
`b` uses its own token row, its own memory and its own source valid length. -/
def decoderCompute (D : DecoderParams) (tokBatch : List (List ℕ)) (n m : ℕ)
    (lens : List ℕ) (mems : List RSeq) : List RSeq :=
  (List.range tokBatch.length).map (fun b =>
    decoderComputeOne D (tokBatch.getD b []) n (lens.getD b 0) m
      (mems.getD b (fun _ _ => 0)))

/-- `SpeechTransformerDecoder.forward` (decoder.py lines 126-140).  `memory`
defaults to None; an absent memory fails when the memory mask is built from it
at line 130 — modelled from the spec: "memory must be supplied (a null/absent
memory is a caller error — cross-attention has no degenerate fallback)".  The
optional source-length vector is likewise consumed by the mask construction. -/
def SpeechTransformerDecoder.forward (D : DecoderParams) (tokBatch : List (List ℕ))
    (n : ℕ) (input_lengths : Option (List ℕ)) (memory : Option (List RSeq × ℕ)) :
    Except String (List RSeq) :=
  match memory with
  | none => Except.error "memory must be supplied: cross-attention has no degenerate fallback"
  | some (mems, m) =>
    match input_lengths with
    | none => Except.error "input_lengths required to build the memory mask"
    | some lens => Except.ok (decoderCompute D tokBatch n m lens mems)

/-! ## Auxiliary definitions for the statements and concrete instances -/

/-- Whether an Except-valued call succeeded (did not raise). -/
def exceptIsOk {α β : Type} : Except α β → Bool
  | Except.ok _ => true
  | Except.error _ => false

/-- All-zero recurrent cell weights, for concrete instantiations. -/
def w0 : CellWeights :=
  { Wih := fun _ => [], Whh := fun _ => [], bih := fun _ => 0, bhh := fun _ => 0 }

/-- A concrete unidirectional encoder without the CTC head. -/
def E1 : EncoderRNN :=
  { input_dim := 1, num_classes := 1, hidden_state_dim := 1, num_layers := 1,
    bidirectional := false, rnn_type := RNNType.rnn, extractor := ExtractorType.vgg,
    joint_ctc_attention := false, convApply := fun u => u,
    rnnWeights := fun _ => (w0, w0), bnGamma := fun _ => 0, bnBeta := fun _ => 0,
    bnMean := fun _ => 0, bnVar := fun _ => 1, bnEps := 0, fcW := fun _ => [0] }

/-- A concrete bidirectional encoder with the CTC head enabled. -/
def E2 : EncoderRNN :=
  { input_dim := 1, num_classes := 1, hidden_state_dim := 1, num_layers := 1,
    bidirectional := true, rnn_type := RNNType.lstm, extractor := ExtractorType.vgg,
    joint_ctc_attention := true, convApply := fun u => u,
    rnnWeights := fun _ => (w0, w0), bnGamma := fun _ => 1, bnBeta := fun _ => 0,
    bnMean := fun _ => 0, bnVar := fun _ => 1, bnEps := 0, fcW := fun _ => [0, 0] }

/-- All-zero multi-head attention parameters. -/
def mha0 : MHAParams :=
  { numHeads := 1, headDim := 1, Wq := fun _ _ _ => 0, Wk := fun _ _ _ => 0,
    Wv := fun _ _ _ => 0, Wo := fun _ _ => 0 }

/-- Trivial layer-normalization parameters. -/
def ln0 : LNParams := { g := fun _ => 1, b := fun _ => 0, eps := 1 }

/-- All-zero feed-forward parameters. -/
def ff0 : FFParams :=
  { d_ff := 1, W1 := fun _ _ => 0, b1 := fun _ => 0, W2 := fun _ _ => 0, b2 := fun _ => 0 }

/-- A concrete decoder layer. -/
def L0 : DecoderLayerP :=
  { selfAttn := mha0, lnSelf := ln0, memAttn := mha0, lnMem := ln0, ff := ff0, lnFf := ln0 }

/-- A concrete one-layer decoder over a two-token vocabulary. -/
def Dc : DecoderParams :=
  { num_classes := 2, d_model := 1, num_heads := 1, pad_id := 0, eos_id := 2,
    emb := fun _ _ => 0, posEnc := fun _ _ => 0, layers := [L0],
    fc1W := fun _ _ => 1, fc1b := fun _ => 0, fc2W := fun _ _ => 1, fc2b := fun _ => 0 }

/-- The all-zero memory sequence. -/
def m0 : RSeq := fun _ _ => 0

/-! ## Structural lemmas about the recurrent stack -/

theorem mem_zipWith_decomp {α β γ : Type} {f : α → β → γ} :
    ∀ {as : List α} {bs : List β} {c : γ}, c ∈ List.zipWith f as bs →
      ∃ a ∈ as, ∃ b ∈ bs, c = f a b := by
  intro as
  induction as with
  | nil => intro bs c hc; simp at hc
  | cons a as ih =>
    intro bs c hc
    cases bs with
    | nil => simp at hc
    | cons b bs =>
      rw [List.zipWith_cons_cons] at hc
      rcases List.mem_cons.mp hc with hc | hc
      · exact ⟨a, List.mem_cons_self a as, b, List.mem_cons_self b bs, hc⟩
      · rcases ih hc with ⟨a2, ha2, b2, hb2, hfab⟩
        exact ⟨a2, List.mem_cons_of_mem a ha2, b2, List.mem_cons_of_mem b hb2, hfab⟩

theorem cellStep_fst_length (ty : RNNType) (h : ℕ) (w : CellWeights) (x : List ℝ)
    (s : List ℝ × List ℝ) : ((cellStep ty h w x s).1).length = h := by
  cases ty <;> simp [cellStep]

theorem runCell_length (ty : RNNType) (h : ℕ) (w : CellWeights) :
    ∀ (xs : List (List ℝ)) (s : List ℝ × List ℝ),
      (runCell ty h w s xs).length = xs.length := by
  intro xs
  induction xs with
  | nil => intro s; rfl
  | cons x xs ih => intro s; simp [runCell, ih]

theorem runCell_mem_length (ty : RNNType) (h : ℕ) (w : CellWeights) :
    ∀ (xs : List (List ℝ)) (s : List ℝ × List ℝ) (v : List ℝ),
      v ∈ runCell ty h w s xs → v.length = h := by
  intro xs
  induction xs with
  | nil => intro s v hv; simp [runCell] at hv
  | cons x xs ih =>
    intro s v hv
    simp only [runCell] at hv
    rcases List.mem_cons.mp hv with hv | hv
    · rw [hv]; exact cellStep_fst_length ty h w x s
    · exact ih _ v hv

theorem rnnLayer_length (ty : RNNType) (h : ℕ) (bidi : Bool) (wf wb : CellWeights)
    (xs : List (List ℝ)) : (rnnLayer ty h bidi wf wb xs).length = xs.length := by
  unfold rnnLayer
  cases bidi
  · simp [runCell_length]
  · simp [runCell_length]

theorem rnnLayer_mem_length (ty : RNNType) (h : ℕ) (bidi : Bool) (wf wb : CellWeights)
    (xs : List (List ℝ)) (v : List ℝ) (hv : v ∈ rnnLayer ty h bidi wf wb xs) :
    v.length = if bidi then 2 * h else h := by
  unfold rnnLayer at hv
  cases bidi
  · simp only [if_neg Bool.false_ne_true, Bool.false_eq_true, if_false] at hv ⊢
    exact runCell_mem_length ty h wf xs _ v hv
  · simp only [if_pos, if_true] at hv ⊢
    rcases mem_zipWith_decomp hv with ⟨a, ha, b, hb, hab⟩
    have h1 : a.length = h := runCell_mem_length ty h wf xs _ a ha
    have h2 : b.length = h := by
      rw [List.mem_reverse] at hb
      exact runCell_mem_length ty h wb xs.reverse _ b hb
    rw [hab, List.length_append, h1, h2]
    omega

theorem rnnStack_length (ty : RNNType) (h : ℕ) (bidi : Bool)
    (weights : ℕ → CellWeights × CellWeights) (numLayers : ℕ) (xs : List (List ℝ)) :
    (rnnStack ty h bidi weights numLayers xs).length = xs.length := by
  unfold rnnStack
  generalize List.range numLayers = l
  induction l generalizing xs with
  | nil => rfl
  | cons a l ih =>
    rw [List.foldl_cons]
    rw [ih (rnnLayer ty h bidi (weights a).1 (weights a).2 xs)]
    exact rnnLayer_length ty h bidi _ _ xs

theorem rnnStack_mem_length (ty : RNNType) (h : ℕ) (bidi : Bool)
    (weights : ℕ → CellWeights × CellWeights) (numLayers : ℕ) (xs : List (List ℝ))
    (hL : 0 < numLayers) (v : List ℝ) (hv : v ∈ rnnStack ty h bidi weights numLayers xs) :
    v.length = if bidi then 2 * h else h := by
  rcases Nat.exists_eq_add_of_lt hL with ⟨n, hn⟩
  subst hn
  rw [Nat.zero_add] at hv
  unfold rnnStack at hv
  rw [List.range_succ, List.foldl_append, List.foldl_cons, List.foldl_nil] at hv
  exact rnnLayer_mem_length ty h bidi _ _ _ v hv

theorem getD_le_foldr_max : ∀ (l : List ℕ) (b : ℕ), l.getD b 0 ≤ l.foldr max 0 := by
  intro l
  induction l with
  | nil => intro b; simp
  | cons a l ih =>
    intro b
    cases b with
    | zero => simp [List.getD_cons_zero]
    | succ b =>
      rw [List.getD_cons_succ, List.foldr_cons]
      exact le_trans (ih b) (le_max_right _ _)

theorem hiddenStates_getD (E : EncoderRNN) (inputs : List (List (List ℝ)))
    (lens : List ℕ) (b : ℕ) (hb : b < inputs.length) :
    (E.hiddenStates inputs lens).getD b []
      = rnnStack E.rnn_type E.hidden_state_dim E.bidirectional E.rnnWeights E.num_layers
          ((E.convApply (inputs.getD b [])).take ((E.reducedLengths lens).getD b 0))
        ++ List.replicate
            ((E.reducedLengths lens).foldr max 0
              - (rnnStack E.rnn_type E.hidden_state_dim E.bidirectional E.rnnWeights
                  E.num_layers
                  ((E.convApply (inputs.getD b [])).take
                    ((E.reducedLengths lens).getD b 0))).length)
            (List.replicate
              (if E.bidirectional then 2 * E.hidden_state_dim else E.hidden_state_dim) 0) := by
  unfold EncoderRNN.hiddenStates
  rw [List.getD_eq_getElem _ _ (by simpa using hb)]
  rw [List.getElem_map, List.getElem_range]

theorem hiddenStates_getD_length (E : EncoderRNN) (inputs : List (List (List ℝ)))
    (lens : List ℕ) (b : ℕ) (hb : b < inputs.length) :
    ((E.hiddenStates inputs lens).getD b []).length
      = (E.reducedLengths lens).foldr max 0 := by
  rw [hiddenStates_getD E inputs lens b hb]
  rw [List.length_append, List.length_replicate, rnnStack_length, List.length_take]
  have h1 : min ((E.reducedLengths lens).getD b 0) (E.convApply (inputs.getD b [])).length
      ≤ (E.reducedLengths lens).foldr max 0 :=
    le_trans (min_le_left _ _) (getD_le_foldr_max _ _)
  omega

/-- C1: with all other configuration equal, the hidden states the encoder feeds
to any downstream head (in particular the CTC projection) have width
`2 * hidden_state_dim` when `bidirectional` is true and `hidden_state_dim`
when it is false. -/
theorem C1_bidirectional_doubles_head_width (E : EncoderRNN)
    (inputs : List (List (List ℝ))) (lens : List ℕ) (b t : ℕ)
    (hL : 0 < E.num_layers) (hb : b < inputs.length)
    (ht : t < (E.reducedLengths lens).foldr max 0) :
    (((E.hiddenStates inputs lens).getD b []).getD t []).length
      = if E.bidirectional then 2 * E.hidden_state_dim else E.hidden_state_dim := by
  have hlen := hiddenStates_getD_length E inputs lens b hb
  have htl : t < ((E.hiddenStates inputs lens).getD b []).length := by
    rw [hlen]; exact ht
  have hmem : ((E.hiddenStates inputs lens).getD b []).getD t []
      ∈ (E.hiddenStates inputs lens).getD b [] := by
    rw [List.getD_eq_getElem _ _ htl]
    exact List.getElem_mem htl
  rw [hiddenStates_getD E inputs lens b hb] at hmem ⊢
  rcases List.mem_append.mp hmem with hm | hm
  · exact rnnStack_mem_length _ _ _ _ _ _ hL _ hm
  · rw [List.eq_of_mem_replicate hm, List.length_replicate]

/-- Witness for C1 at a concrete unidirectional encoder and a concrete batch. -/
theorem C1_witness :
    0 < E1.num_layers ∧ 0 < (E1.reducedLengths [4]).foldr max 0 ∧
    (((E1.hiddenStates [[[(0 : ℝ)]]] [4]).getD 0 []).getD 0 []).length
      = if E1.bidirectional then 2 * E1.hidden_state_dim else E1.hidden_state_dim :=
  ⟨by decide, by decide,
    C1_bidirectional_doubles_head_width E1 [[[(0 : ℝ)]]] [4] 0 0 (by decide) (by decide)
      (by decide)⟩

/-- C3: the encoder's forward returns the CTC log-probability component as
`none` exactly when `joint_ctc_attention` is disabled; when enabled, that
component is the hidden states passed frame-wise through batch-normalization,
dropout, a bias-free linear projection to `num_classes`, and a log-softmax
over the class axis. -/
theorem C3_ctc_component_none_iff_disabled (E : EncoderRNN)
    (inputs : List (List (List ℝ))) (lens : List ℕ)
    (hs : nonIncreasing (E.reducedLengths lens)) :
    E.forward inputs lens
      = Except.ok (E.hiddenStates inputs lens, E.reducedLengths lens,
          if E.joint_ctc_attention then
            some ((E.hiddenStates inputs lens).map (fun u => u.map (fun v =>
              logSoftmaxL (linearNoBias E.fcW E.num_classes
                (dropoutEval (batchNormApply E v))))))
          else none)
    ∧ (∀ hsO lsO probs, E.forward inputs lens = Except.ok (hsO, lsO, probs) →
        (probs = none ↔ E.joint_ctc_attention = false)) := by
  constructor
  · unfold EncoderRNN.forward
    rw [if_pos hs]
    rfl
  · intro hsO lsO probs heq
    unfold EncoderRNN.forward at heq
    rw [if_pos hs] at heq
    injection heq with htr
    have h3 : (if E.joint_ctc_attention then
        some ((E.hiddenStates inputs lens).map (fun u => u.map (ctcFrame E)))
        else none) = probs := congrArg (fun p => p.2.2) htr
    rw [← h3]
    cases hj : E.joint_ctc_attention
    · simp
    · simp

/-- Witness for C3 at a concrete encoder with the CTC head enabled. -/
theorem C3_witness :
    E2.forward [[[(0 : ℝ)]]] [4]
      = Except.ok (E2.hiddenStates [[[(0 : ℝ)]]] [4], E2.reducedLengths [4],
          if E2.joint_ctc_attention then
            some ((E2.hiddenStates [[[(0 : ℝ)]]] [4]).map (fun u => u.map (fun v =>
              logSoftmaxL (linearNoBias E2.fcW E2.num_classes
                (dropoutEval (batchNormApply E2 v))))))
          else none) :=
  (C3_ctc_component_none_iff_disabled E2 [[[(0 : ℝ)]]] [4] (by decide)).1

/-- C4: an unrecognized configuration string (rnn cell type, convolutional
extractor type, or feed-forward style) makes the corresponding construction
fail, rather than deferring to a runtime shape error: construction succeeds
exactly when every configuration string is recognized. -/
theorem C4_unknown_config_fails_at_construction :
    (∀ (input_dim num_classes hidden_state_dim num_layers : ℕ) (bidirectional : Bool)
       (rnn_type extr : String) (joint : Bool)
       (convApply : List (List ℝ) → List (List ℝ))
       (rnnWeights : ℕ → CellWeights × CellWeights)
       (g bta mu va : ℕ → ℝ) (eps : ℝ) (W : ℕ → List ℝ),
       exceptIsOk (EncoderRNN.init input_dim num_classes hidden_state_dim num_layers
           bidirectional rnn_type extr joint convApply rnnWeights g bta mu va eps W)
         = ((supported_extractors extr.toLower).isSome
             && (supported_rnns rnn_type.toLower).isSome))
    ∧ (∀ (d_model num_heads d_ff : ℕ) (style : String) (P : DecoderLayerP),
       exceptIsOk (SpeechTransformerDecoderLayer.init d_model num_heads d_ff style P)
         = decide (style ∈ supported_ffnet_styles)) := by
  constructor
  · intro input_dim num_classes hidden_state_dim num_layers bidirectional rnn_type extr
      joint convApply rnnWeights g bta mu va eps W
    rcases h1 : supported_extractors extr.toLower with _ | e
    · simp [EncoderRNN.init, h1, exceptIsOk]
    · rcases h2 : supported_rnns rnn_type.toLower with _ | r
      · simp [EncoderRNN.init, h1, h2, exceptIsOk]
      · simp [EncoderRNN.init, h1, h2, exceptIsOk]
  · intro d_model num_heads d_ff style P
    by_cases hmem : style ∈ supported_ffnet_styles
    · simp [SpeechTransformerDecoderLayer.init, hmem, exceptIsOk]
    · simp [SpeechTransformerDecoderLayer.init, hmem, exceptIsOk]

theorem reducedLengths_getD (E : EncoderRNN) (L : List ℕ) (i : ℕ) (hi : i < L.length) :
    (E.reducedLengths L).getD i 0 = L.getD i 0 / E.extractor.factor := by
  unfold EncoderRNN.reducedLengths
  rw [List.getD_eq_getElem _ _ (by simpa using hi), List.getElem_map,
    List.getD_eq_getElem _ _ hi]

/-- C8: the encoder's reduced valid lengths are bounded by the reduced padded
time and are monotone in the raw lengths under the extractor's fixed
downsampling factor; in the 2-utterance scenario with valid lengths
`[100, 60]`, both reduced lengths are at most `reduced 100` and
`reduced 60 < reduced 100`. -/
theorem C8_reduced_lengths_bounded_and_monotone (E : EncoderRNN) (L : List ℕ) (T : ℕ) :
    (∀ i, i < L.length → L.getD i 0 ≤ T →
       (E.reducedLengths L).getD i 0 ≤ T / E.extractor.factor)
    ∧ (∀ i j, i < L.length → j < L.length → L.getD i 0 < L.getD j 0 →
       (E.reducedLengths L).getD i 0 ≤ (E.reducedLengths L).getD j 0)
    ∧ ((E.reducedLengths [100, 60]).getD 0 0 ≤ 100 / E.extractor.factor
       ∧ (E.reducedLengths [100, 60]).getD 1 0 ≤ 100 / E.extractor.factor
       ∧ (E.reducedLengths [100, 60]).getD 1 0 < (E.reducedLengths [100, 60]).getD 0 0) := by
  refine ⟨?_, ?_, ?_, ?_, ?_⟩
  · intro i hi hT
    rw [reducedLengths_getD E L i hi]
    exact Nat.div_le_div_right hT
  · intro i j hi hj hij
    rw [reducedLengths_getD E L i hi, reducedLengths_getD E L j hj]
    exact Nat.div_le_div_right (le_of_lt hij)
  · rw [reducedLengths_getD E [100, 60] 0 (by decide)]
    exact Nat.le_refl _
  · rw [reducedLengths_getD E [100, 60] 1 (by decide)]
    exact Nat.div_le_div_right (by norm_num)
  · rw [reducedLengths_getD E [100, 60] 0 (by decide),
      reducedLengths_getD E [100, 60] 1 (by decide)]
    cases hE : E.extractor <;> simp [ExtractorType.factor]

/-- Witness for C8 at a concrete encoder and the spec's 2-utterance scenario. -/
theorem C8_witness :
    (E1.reducedLengths [100, 60]).getD 1 0 ≤ 100 / E1.extractor.factor
    ∧ (E1.reducedLengths [100, 60]).getD 1 0 ≤ (E1.reducedLengths [100, 60]).getD 0 0
    ∧ (E1.reducedLengths [100, 60]).getD 1 0 < (E1.reducedLengths [100, 60]).getD 0 0 :=
  ⟨(C8_reduced_lengths_bounded_and_monotone E1 [100, 60] 100).1 1 (by decide) (by decide),
   (C8_reduced_lengths_bounded_and_monotone E1 [100, 60] 100).2.1 1 0 (by decide) (by decide)
     (by decide),
   (C8_reduced_lengths_bounded_and_monotone E1 [100, 60] 100).2.2.2.2⟩

/-- C10: the encoder's forward reaches the recurrent stage without error
exactly when the reduced valid lengths are in non-increasing order (the
framework's default sorted-lengths packing requirement); a violating batch
makes it raise rather than silently reorder batch elements. -/
theorem C10_forward_requires_sorted_lengths (E : EncoderRNN)
    (inputs : List (List (List ℝ))) (lens : List ℕ) :
    (exceptIsOk (E.forward inputs lens) = true ↔ nonIncreasing (E.reducedLengths lens))
    ∧ (¬ nonIncreasing (E.reducedLengths lens) →
       E.forward inputs lens
         = Except.error
             "lengths array must be sorted in decreasing order when enforce_sorted is True") := by
  unfold EncoderRNN.forward
  by_cases hs : nonIncreasing (E.reducedLengths lens)
  · rw [if_pos hs]
    exact ⟨⟨fun _ => hs, fun _ => rfl⟩, fun hn => absurd hs hn⟩
  · rw [if_neg hs]
    refine ⟨⟨fun hfalse => ?_, fun hh => absurd hh hs⟩, fun _ => rfl⟩
    simp [exceptIsOk] at hfalse

/-- Witness for C10 at a concrete batch whose reduced lengths increase. -/
theorem C10_witness :
    E1.forward [[[(0 : ℝ)]]] [4, 8]
      = Except.error
          "lengths array must be sorted in decreasing order when enforce_sorted is True" :=
  (C10_forward_requires_sorted_lengths E1 [[[(0 : ℝ)]]] [4, 8]).2 (by decide)

/-! ## Normalization lemmas -/

theorem sum_map_div (l : List ℝ) (f : ℝ → ℝ) (c : ℝ) :
    (l.map (fun x => f x / c)).sum = (l.map f).sum / c := by
  induction l with
  | nil => simp
  | cons a l ih => simp [ih, add_div]

theorem logSoftmaxL_length (v : List ℝ) : (logSoftmaxL v).length = v.length := by
  simp [logSoftmaxL]

theorem logSoftmaxL_exp_sum (v : List ℝ) (hv : v ≠ []) :
    ((logSoftmaxL v).map Real.exp).sum = 1 := by
  have hpos : 0 < (v.map Real.exp).sum := by
    apply List.sum_pos
    · intro x hx
      rcases List.mem_map.mp hx with ⟨y, _, hxy⟩
      rw [← hxy]
      exact Real.exp_pos y
    · simpa using hv
  unfold logSoftmaxL
  rw [List.map_map]
  have hcong : v.map (Real.exp ∘ fun x => x - Real.log ((v.map Real.exp).sum))
      = v.map (fun x => Real.exp x / (v.map Real.exp).sum) := by
    apply List.map_congr_left
    intro a _
    simp only [Function.comp_apply]
    rw [Real.exp_sub, Real.exp_log hpos]
  rw [hcong, sum_map_div, div_self (ne_of_gt hpos)]

theorem ctcFrame_length (E : EncoderRNN) (v : List ℝ) :
    (ctcFrame E v).length = E.num_classes := by
  unfold ctcFrame
  rw [logSoftmaxL_length]
  simp [linearNoBias]

theorem ctcFrame_exp_sum (E : EncoderRNN) (v : List ℝ) (hC : 0 < E.num_classes) :
    ((ctcFrame E v).map Real.exp).sum = 1 := by
  unfold ctcFrame
  apply logSoftmaxL_exp_sum
  intro hnil
  have hlen := congrArg List.length hnil
  simp [linearNoBias] at hlen
  omega

theorem logSoftmaxN_exp_sum (C : ℕ) (hC : 0 < C) (v : RVec) :
    ∑ c ∈ Finset.range C, Real.exp (logSoftmaxN C v c) = 1 := by
  have hpos : 0 < ∑ u ∈ Finset.range C, Real.exp (v u) :=
    Finset.sum_pos (fun u _ => Real.exp_pos (v u))
      (Finset.nonempty_range_iff.mpr (by omega))
  unfold logSoftmaxN
  have hcong : ∀ c ∈ Finset.range C,
      Real.exp (v c - Real.log (∑ u ∈ Finset.range C, Real.exp (v u)))
        = Real.exp (v c) / (∑ u ∈ Finset.range C, Real.exp (v u)) := by
    intro c _
    rw [Real.exp_sub, Real.exp_log hpos]
  rw [Finset.sum_congr rfl hcong, ← Finset.sum_div, div_self (ne_of_gt hpos)]

theorem decoderCompute_getD (D : DecoderParams) (tokBatch : List (List ℕ)) (n m : ℕ)
    (lens : List ℕ) (mems : List RSeq) (b : ℕ) (hb : b < tokBatch.length) :
    (decoderCompute D tokBatch n m lens mems).getD b (fun _ _ => 0)
      = decoderComputeOne D (tokBatch.getD b []) n (lens.getD b 0) m
          (mems.getD b (fun _ _ => 0)) := by
  unfold decoderCompute
  rw [List.getD_eq_getElem _ _ (by simpa using hb), List.getElem_map, List.getElem_range]

/-- C7: every log-probability output of the program sums to 1 after
exponentiation — the decoder's per-position output over the vocabulary axis
and, when the CTC head is enabled, the encoder's per-frame output over the
class axis, whose class dimension moreover equals `num_classes`. -/
theorem C7_outputs_normalized :
    (∀ (E : EncoderRNN) (inputs : List (List (List ℝ))) (lens : List ℕ),
       E.joint_ctc_attention = true → 0 < E.num_classes →
       nonIncreasing (E.reducedLengths lens) = true →
       E.forward inputs lens
           = Except.ok (E.hiddenStates inputs lens, E.reducedLengths lens,
               some ((E.hiddenStates inputs lens).map (fun u => u.map (ctcFrame E))))
         ∧ ∀ u ∈ (E.hiddenStates inputs lens).map (fun u => u.map (ctcFrame E)),
             ∀ row ∈ u, row.length = E.num_classes ∧ (row.map Real.exp).sum = 1)
    ∧ (∀ (D : DecoderParams) (tokBatch : List (List ℕ)) (n m : ℕ) (lens : List ℕ)
         (mems : List RSeq) (b i : ℕ), 0 < D.num_classes → b < tokBatch.length →
         ∑ c ∈ Finset.range D.num_classes,
           Real.exp ((decoderCompute D tokBatch n m lens mems).getD b
             (fun _ _ => 0) i c) = 1) := by
  constructor
  · intro E inputs lens hj hC hs
    constructor
    · unfold EncoderRNN.forward
      rw [if_pos hs, hj]
      simp
    · intro u hu row hrow
      rcases List.mem_map.mp hu with ⟨u0, _, huu⟩
      rw [← huu] at hrow
      rcases List.mem_map.mp hrow with ⟨v, _, hvv⟩
      rw [← hvv]
      exact ⟨ctcFrame_length E v, ctcFrame_exp_sum E v hC⟩
  · intro D tokBatch n m lens mems b i hC hb
    rw [decoderCompute_getD D tokBatch n m lens mems b hb]
    simp only [decoderComputeOne, getNormalizedProbs]
    exact logSoftmaxN_exp_sum D.num_classes hC _

/-- Witness for C7: a concrete CTC-enabled encoder call and a concrete decoder
position. -/
theorem C7_witness :
    (E2.forward [[[(0 : ℝ)]]] [4]
        = Except.ok (E2.hiddenStates [[[(0 : ℝ)]]] [4], E2.reducedLengths [4],
            some ((E2.hiddenStates [[[(0 : ℝ)]]] [4]).map (fun u => u.map (ctcFrame E2)))))
    ∧ (∑ c ∈ Finset.range Dc.num_classes,
        Real.exp ((decoderCompute Dc [[1, 2]] 2 1 [1] [m0]).getD 0
          (fun _ _ => 0) 0 c) = 1) :=
  ⟨(C7_outputs_normalized.1 E2 [[[(0 : ℝ)]]] [4] rfl (by decide) (by decide)).1,
   C7_outputs_normalized.2 Dc [[1, 2]] 2 1 [1] [m0] 0 0 (by decide) (by decide)⟩

/-- C9: the decoder stack's forward requires the encoder memory: a null/absent
memory makes the call fail; there is no degenerate fallback producing a result
without cross-attention. -/
theorem C9_memory_must_be_supplied (D : DecoderParams) (tokBatch : List (List ℕ))
    (n : ℕ) (input_lengths : Option (List ℕ)) :
    SpeechTransformerDecoder.forward D tokBatch n input_lengths none
      = Except.error "memory must be supplied: cross-attention has no degenerate fallback" :=
  rfl

/-- C5: the decoder stack's forward threads the embedded-plus-positioned (and
dropout-applied) sequence through all layers in order — each layer consuming
the previous layer's output with the same shared memory and the same two
masks — then applies the two-layer projection and log-softmax, returning only
the log-probabilities. -/
theorem C5_stack_threads_layers_and_projects :
    (∀ (D : DecoderParams) (tokBatch : List (List ℕ)) (n m : ℕ) (lens : List ℕ)
       (mems : List RSeq),
       SpeechTransformerDecoder.forward D tokBatch n (some lens) (some (mems, m))
         = Except.ok ((List.range tokBatch.length).map (fun b => fun i =>
             getNormalizedProbs D (threadLayers D.d_model D.layers
               (embedTokens D (tokBatch.getD b [])) (mems.getD b (fun _ _ => 0)) n m
               (selfAttnMask D.pad_id (tokBatch.getD b []))
               (memAttnMask (lens.getD b 0)) i))))
    ∧ (∀ (d : ℕ) (Lp : DecoderLayerP) (Ls : List DecoderLayerP) (x mem : RSeq)
       (n m : ℕ) (sm mm : ℕ → ℕ → Bool),
       threadLayers d (Lp :: Ls) x mem n m sm mm
         = threadLayers d Ls (layerForward d Lp x mem n m sm mm).1 mem n m sm mm)
    ∧ (∀ (d : ℕ) (x mem : RSeq) (n m : ℕ) (sm mm : ℕ → ℕ → Bool),
       threadLayers d ([] : List DecoderLayerP) x mem n m sm mm = x) :=
  ⟨fun _ _ _ _ _ _ => rfl, fun _ _ _ _ _ _ _ _ _ => rfl, fun _ _ _ _ _ _ _ => rfl⟩

/-- C6: the decoder layer applies exactly three stages in order — masked
self-attention, cross-attention against the encoder memory, and the
position-wise feed-forward net — each stage's raw output added to its input
and normalized before the next stage, and returns the updated hidden states
together with the two attention-weight maps, which its output states do not
consume. -/
theorem C6_layer_applies_three_residual_stages (d : ℕ) (L : DecoderLayerP)
    (x mem : RSeq) (n m : ℕ) (sm mm : ℕ → ℕ → Bool) :
    ∃ o1 o2 : RSeq,
      (∀ i, o1 i = lnApply d L.lnSelf
          (addV (mhaOut L.selfAttn d (x i) x x n (sm i)) (x i)))
      ∧ (∀ i, o2 i = lnApply d L.lnMem
          (addV (mhaOut L.memAttn d (o1 i) mem mem m (mm i)) (o1 i)))
      ∧ (layerForward d L x mem n m sm mm).1
          = (fun i => lnApply d L.lnFf (addV (ffApply d L.ff (o2 i)) (o2 i)))
      ∧ (layerForward d L x mem n m sm mm).2.1
          = (fun h i j => attnWeightD L.selfAttn d h (x i) x n (sm i) j)
      ∧ (layerForward d L x mem n m sm mm).2.2
          = (fun h i j => attnWeightD L.memAttn d h (o1 i) mem m (mm i) j) :=
  ⟨addNormSeq d L.lnSelf (mhaForward L.selfAttn d x x x n sm).1 x,
   addNormSeq d L.lnMem
     (mhaForward L.memAttn d
       (addNormSeq d L.lnSelf (mhaForward L.selfAttn d x x x n sm).1 x) mem mem m mm).1
     (addNormSeq d L.lnSelf (mhaForward L.selfAttn d x x x n sm).1 x),
   fun _ => rfl, fun _ => rfl, rfl, rfl, rfl⟩

/-! ## Causality of the decoder self-attention mask -/

theorem selfAttnMask_future (pad : ℕ) (toks : List ℕ) (i j : ℕ) (hij : i < j) :
    selfAttnMask pad toks i j = true := by
  simp [selfAttnMask, hij]

theorem selfAttnMask_unmasked_le (pad : ℕ) (toks : List ℕ) (i j : ℕ)
    (hm : selfAttnMask pad toks i j = false) : j ≤ i := by
  by_contra hc
  rw [selfAttnMask_future pad toks i j (by omega)] at hm
  simp at hm

theorem selfAttnMask_agree (pad : ℕ) (toks toks2 : List ℕ) (k : ℕ)
    (hagree : ∀ j, j ≤ k → toks.getD j pad = toks2.getD j pad)
    (i : ℕ) (hi : i ≤ k) (j : ℕ) :
    selfAttnMask pad toks i j = selfAttnMask pad toks2 i j := by
  by_cases hij : i < j
  · rw [selfAttnMask_future pad toks i j hij, selfAttnMask_future pad toks2 i j hij]
  · unfold selfAttnMask
    rw [hagree j (by omega)]

theorem attnDenom_congr (p : MHAParams) (d h : ℕ) (q : RVec) (keys keys2 : RSeq)
    (n : ℕ) (masked masked2 : ℕ → Bool)
    (hm : ∀ j, masked j = masked2 j)
    (hk : ∀ j, j < n → masked j = false → keys j = keys2 j) :
    attnDenom p d h q keys n masked = attnDenom p d h q keys2 n masked2 := by
  unfold attnDenom
  refine Finset.sum_congr rfl (fun j hj => ?_)
  rw [Finset.mem_range] at hj
  rw [← hm j]
  cases hmj : masked j
  · simp only [Bool.false_eq_true, if_false]
    rw [hk j hj hmj]
  · simp

theorem attnWeightD_congr (p : MHAParams) (d h : ℕ) (q : RVec) (keys keys2 : RSeq)
    (n : ℕ) (masked masked2 : ℕ → Bool)
    (hm : ∀ j, masked j = masked2 j)
    (hk : ∀ j, j < n → masked j = false → keys j = keys2 j)
    (j : ℕ) (hj : j < n) :
    attnWeightD p d h q keys n masked j = attnWeightD p d h q keys2 n masked2 j := by
  unfold attnWeightD
  rw [← hm j]
  cases hmj : masked j
  · simp only [Bool.false_eq_true, if_false]
    rw [hk j hj hmj, attnDenom_congr p d h q keys keys2 n masked masked2 hm hk]
  · simp

theorem headOut_congr (p : MHAParams) (d h : ℕ) (q : RVec) (keys keys2 vals vals2 : RSeq)
    (n : ℕ) (masked masked2 : ℕ → Bool)
    (hm : ∀ j, masked j = masked2 j)
    (hk : ∀ j, j < n → masked j = false → keys j = keys2 j)
    (hv : ∀ j, j < n → masked j = false → vals j = vals2 j) :
    headOut p d h q keys vals n masked = headOut p d h q keys2 vals2 n masked2 := by
  funext t
  unfold headOut
  refine Finset.sum_congr rfl (fun j hj => ?_)
  rw [Finset.mem_range] at hj
  cases hmj : masked j
  · rw [attnWeightD_congr p d h q keys keys2 n masked masked2 hm hk j hj, hv j hj hmj]
  · have h1 : attnWeightD p d h q keys n masked j = 0 := by
      unfold attnWeightD
      simp [hmj]
    have h2 : attnWeightD p d h q keys2 n masked2 j = 0 := by
      unfold attnWeightD
      rw [← hm j]
      simp [hmj]
    rw [h1, h2, zero_mul, zero_mul]

theorem mhaOut_congr (p : MHAParams) (d : ℕ) (q q2 : RVec) (keys keys2 vals vals2 : RSeq)
    (n : ℕ) (masked masked2 : ℕ → Bool)
    (hq : q = q2) (hm : ∀ j, masked j = masked2 j)
    (hk : ∀ j, j < n → masked j = false → keys j = keys2 j)
    (hv : ∀ j, j < n → masked j = false → vals j = vals2 j) :
    mhaOut p d q keys vals n masked = mhaOut p d q2 keys2 vals2 n masked2 := by
  subst hq
  funext r
  unfold mhaOut
  congr 1
  unfold concatHeads
  funext t
  exact congrFun
    (headOut_congr p d (t / p.headDim) q keys keys2 vals vals2 n masked masked2 hm hk hv)
    (t % p.headDim)

theorem layerForward_fst_eq (d : ℕ) (L : DecoderLayerP) (x mem : RSeq) (n m : ℕ)
    (sm mm : ℕ → ℕ → Bool) (i : ℕ) :
    (layerForward d L x mem n m sm mm).1 i
      = lnApply d L.lnFf (addV (ffApply d L.ff
          (lnApply d L.lnMem (addV (mhaOut L.memAttn d
             (lnApply d L.lnSelf (addV (mhaOut L.selfAttn d (x i) x x n (sm i)) (x i)))
             mem mem m (mm i))
           (lnApply d L.lnSelf (addV (mhaOut L.selfAttn d (x i) x x n (sm i)) (x i))))))
          (lnApply d L.lnMem (addV (mhaOut L.memAttn d
             (lnApply d L.lnSelf (addV (mhaOut L.selfAttn d (x i) x x n (sm i)) (x i)))
             mem mem m (mm i))
           (lnApply d L.lnSelf (addV (mhaOut L.selfAttn d (x i) x x n (sm i)) (x i)))))) :=
  rfl

theorem layerForward_agree (d : ℕ) (L : DecoderLayerP) (x x2 mem : RSeq) (n m k : ℕ)
    (sm sm2 mm : ℕ → ℕ → Bool)
    (hmask : ∀ i, i ≤ k → ∀ j, sm i j = sm2 i j)
    (hcaus : ∀ i j, i ≤ k → sm i j = false → j ≤ i)
    (hx : ∀ i, i ≤ k → x i = x2 i) (i : ℕ) (hi : i ≤ k) :
    (layerForward d L x mem n m sm mm).1 i = (layerForward d L x2 mem n m sm2 mm).1 i := by
  have hself : mhaOut L.selfAttn d (x i) x x n (sm i)
      = mhaOut L.selfAttn d (x2 i) x2 x2 n (sm2 i) :=
    mhaOut_congr L.selfAttn d (x i) (x2 i) x x2 x x2 n (sm i) (sm2 i)
      (hx i hi) (hmask i hi)
      (fun j _ hmj => hx j (le_trans (hcaus i j hi hmj) hi))
      (fun j _ hmj => hx j (le_trans (hcaus i j hi hmj) hi))
  rw [layerForward_fst_eq, layerForward_fst_eq, hself, hx i hi]

theorem threadLayers_agree (d : ℕ) (mem : RSeq) (n m k : ℕ)
    (sm sm2 mm : ℕ → ℕ → Bool)
    (hmask : ∀ i, i ≤ k → ∀ j, sm i j = sm2 i j)
    (hcaus : ∀ i j, i ≤ k → sm i j = false → j ≤ i) :
    ∀ (Ls : List DecoderLayerP) (x x2 : RSeq), (∀ i, i ≤ k → x i = x2 i) →
      ∀ i, i ≤ k → threadLayers d Ls x mem n m sm mm i
        = threadLayers d Ls x2 mem n m sm2 mm i := by
  intro Ls
  induction Ls with
  | nil => intro x x2 hx i hi; exact hx i hi
  | cons Lp Ls ih =>
    intro x x2 hx i hi
    exact ih ((layerForward d Lp x mem n m sm mm).1)
      ((layerForward d Lp x2 mem n m sm2 mm).1)
      (fun i2 hi2 =>
        layerForward_agree d Lp x x2 mem n m k sm sm2 mm hmask hcaus hx i2 hi2) i hi

/-- C2: for every pair of token batches identical at positions 0..k (same
encoder memory and source lengths), the decoder's forward produces identical
log-probability outputs at every position at most k — position i's output is
invariant to token values at positions beyond i. -/
theorem C2_no_future_leakage (D : DecoderParams) (tb tb2 : List (List ℕ))
    (n m k : ℕ) (lens : List ℕ) (mems : List RSeq) (out out2 : List RSeq)
    (hB : tb.length = tb2.length)
    (hagree : ∀ b, b < tb.length → ∀ j, j ≤ k →
      (tb.getD b []).getD j D.pad_id = (tb2.getD b []).getD j D.pad_id)
    (h1 : SpeechTransformerDecoder.forward D tb n (some lens) (some (mems, m))
      = Except.ok out)
    (h2 : SpeechTransformerDecoder.forward D tb2 n (some lens) (some (mems, m))
      = Except.ok out2)
    (b i : ℕ) (hi : i ≤ k) :
    out.getD b (fun _ _ => 0) i = out2.getD b (fun _ _ => 0) i := by
  have h1b : Except.ok (ε := String) (decoderCompute D tb n m lens mems)
      = Except.ok out := h1
  have h2b : Except.ok (ε := String) (decoderCompute D tb2 n m lens mems)
      = Except.ok out2 := h2
  injection h1b with hout
  injection h2b with hout2
  rw [← hout, ← hout2]
  by_cases hb : b < tb.length
  · rw [decoderCompute_getD D tb n m lens mems b hb,
      decoderCompute_getD D tb2 n m lens mems b (hB ▸ hb)]
    have htoks : ∀ j, j ≤ k →
        (tb.getD b []).getD j D.pad_id = (tb2.getD b []).getD j D.pad_id := hagree b hb
    have hmask : ∀ i2, i2 ≤ k → ∀ j,
        selfAttnMask D.pad_id (tb.getD b []) i2 j
          = selfAttnMask D.pad_id (tb2.getD b []) i2 j :=
      fun i2 hi2 j =>
        selfAttnMask_agree D.pad_id (tb.getD b []) (tb2.getD b []) k htoks i2 hi2 j
    have hcaus : ∀ i2 j, i2 ≤ k →
        selfAttnMask D.pad_id (tb.getD b []) i2 j = false → j ≤ i2 :=
      fun i2 j _ hmj => selfAttnMask_unmasked_le D.pad_id (tb.getD b []) i2 j hmj
    have hemb : ∀ i2, i2 ≤ k →
        embedTokens D (tb.getD b []) i2 = embedTokens D (tb2.getD b []) i2 := by
      intro i2 hi2
      unfold embedTokens
      rw [htoks i2 hi2]
    have hthreads := threadLayers_agree D.d_model (mems.getD b (fun _ _ => 0)) n m k
      (selfAttnMask D.pad_id (tb.getD b [])) (selfAttnMask D.pad_id (tb2.getD b []))
      (memAttnMask (lens.getD b 0)) hmask hcaus D.layers
      (embedTokens D (tb.getD b [])) (embedTokens D (tb2.getD b [])) hemb i hi
    unfold decoderComputeOne
    rw [hthreads]
  · have hlen1 : (decoderCompute D tb n m lens mems).length ≤ b := by
      simp only [decoderCompute, List.length_map, List.length_range]
      omega
    have hlen2 : (decoderCompute D tb2 n m lens mems).length ≤ b := by
      simp only [decoderCompute, List.length_map, List.length_range]
      omega
    rw [List.getD_eq_default _ _ hlen1, List.getD_eq_default _ _ hlen2]

/-- Witness for C2: two concrete one-utterance batches that agree at position 0
and differ at position 1 give the same output at position 0. -/
theorem C2_witness :
    (decoderCompute Dc [[1, 2]] 2 1 [1] [m0]).getD 0 (fun _ _ => 0) 0
      = (decoderCompute Dc [[1, 3]] 2 1 [1] [m0]).getD 0 (fun _ _ => 0) 0 :=
  C2_no_future_leakage Dc [[1, 2]] [[1, 3]] 2 1 0 [1] [m0]
    (decoderCompute Dc [[1, 2]] 2 1 [1] [m0]) (decoderCompute Dc [[1, 3]] 2 1 [1] [m0])
    (by decide) (by decide) rfl rfl 0 0 (by decide)
